import Mathlib

/-!
Shallow embedding of custom_components/blitzortung/geo_location.py.

The buffer class Strikes (a list subclass with a parallel key list), the
manager BlitzortungEventManager, the entity constructor
BlitzortungEvent.__init__ and the setup guard async_setup_entry are
translated into executable Lean definitions.  Python floats appearing as
timestamps are modelled as rationals; raised exceptions (KeyError on a
missing dict field, AttributeError on a not-yet-assigned attribute) are
modelled with Except, the error value carrying the missing name.
-/

namespace Blitzortung

/-- Modelled from the spec: the DOMAIN constant imported from the const module,
which is not under src.  Its value is presentation-only (it is stored in an
attribute and never inspected by core logic). -/
def DOMAIN : String := "blitzortung"

/-- Modelled from the spec: the ATTRIBUTION constant imported from the const
module, which is not under src.  Presentation-only. -/
def ATTRIBUTION : String := "Data provided by blitzortung.org"

/-- Display unit of length, resolved once at manager construction
(geo_location.py lines 99-102). -/
inductive UnitLength
  | miles
  | kilometers
deriving DecidableEq

/-- The value assigned by line 152 of geo_location.py:
self._publication_date = time / 1e9 (nanoseconds scaled to seconds). -/
def publication_date_of_time (time : Int) : ℚ := (time : ℚ) / 10 ^ 9

/-- The fields a fully initialised BlitzortungEvent carries that the buffer and
the manager read (geo_location.py lines 139-159).  The uuid4 hex string of line
154 is externally generated nondeterminism and is modelled as an opaque Nat. -/
structure BlitzortungEventData where
  _attr_distance : ℚ
  _attr_latitude : ℚ
  _attr_longitude : ℚ
  _time : Int
  _status : Int
  _region : Int
  _publication_date : ℚ
  _strike_id : Nat
deriving DecidableEq

/-- The key function installed by Strikes.__init__ (line 50):
lambda strike: strike._publication_date. -/
def key_fn (strike : BlitzortungEventData) : ℚ := strike._publication_date

/-- Python bisect.bisect_right on a sorted list: the insertion point to the
right of all existing entries that are at most x (the count of leading
elements that are at most x).  bisect is a stdlib binary search; on the sorted
key lists this container maintains it computes exactly this value. -/
def bisect_right (a : List ℚ) (x : ℚ) : Nat :=
  (a.takeWhile fun y => decide (y ≤ x)).length

/-- Python list.insert(i, x): insert x before position i (clamping like Python
when i exceeds the length). -/
def list_insert (l : List α) (i : Nat) (x : α) : List α :=
  l.take i ++ x :: l.drop i

/-- The Strikes container (geo_location.py lines 47-84): a list subclass
(field entries holds the list contents) with a parallel key list _keys, a
running maximum _max_key initialised to 0, and a fixed _capacity. -/
structure Strikes where
  entries : List BlitzortungEventData
  keys : List ℚ
  maxKey : ℚ
  capacity : Int
deriving DecidableEq

/-- Strikes.__init__(capacity) (lines 48-53). -/
def Strikes.init (capacity : Int) : Strikes :=
  { entries := [], keys := [], maxKey := 0, capacity := capacity }

/-- The placement step of Strikes.insort (lines 56-64): fast append when the
key is strictly above the running maximum, otherwise a right-biased
bisect_right insertion into both parallel lists. -/
def Strikes.place (s : Strikes) (item : BlitzortungEventData) : Strikes :=
  let k := key_fn item
  if s.maxKey < k then
    { s with maxKey := k, keys := s.keys ++ [k], entries := s.entries ++ [item] }
  else
    let i := bisect_right s.keys k
    { s with keys := list_insert s.keys i k, entries := list_insert s.entries i item }

/-- Strikes.insort (lines 55-71): place the item, then if the length exceeds
the capacity delete the first n = len - capacity elements from both lists and
return them; otherwise return the empty result. -/
def Strikes.insort (s : Strikes) (item : BlitzortungEventData) :
    Strikes × List BlitzortungEventData :=
  let s1 := s.place item
  let n : Int := (s1.entries.length : Int) - s.capacity
  if 0 < n then
    ({ s1 with keys := s1.keys.drop n.toNat, entries := s1.entries.drop n.toNat },
     s1.entries.take n.toNat)
  else
    (s1, [])

/-- Strikes.cleanup (lines 73-84): if the key list is empty or its first key
already exceeds k, return the empty result; otherwise drop the first
i = bisect_right(_keys, k) elements from both lists and return them. -/
def Strikes.cleanup (s : Strikes) (k : ℚ) : Strikes × List BlitzortungEventData :=
  match s.keys with
  | [] => (s, [])
  | k0 :: _ =>
    if k < k0 then
      (s, [])
    else
      let i := bisect_right s.keys k
      if i = 0 then
        (s, [])
      else
        ({ s with keys := s.keys.drop i, entries := s.entries.drop i },
         s.entries.take i)

/-- A raw mqtt lightning payload as received by lightning_cb: a Python dict
whose fields may be absent.  Shape per the external feed:
distance, lat, lon, time (integer nanoseconds), status, region. -/
structure PayloadDict where
  distance : Option ℚ
  lat : Option ℚ
  lon : Option ℚ
  time : Option Int
  status : Option Int
  region : Option Int
deriving DecidableEq

/-- Python dict subscript access: raises KeyError (the error names the missing
key) when the field is absent. -/
def dict_get (o : Option α) (key : String) : Except String α :=
  match o with
  | some v => Except.ok v
  | none => Except.error key

/-- Python attribute read on an object under construction: raises
AttributeError (the error names the missing attribute) when the attribute has
not been assigned yet. -/
def getattr (o : Option α) (name : String) : Except String α :=
  match o with
  | some v => Except.ok v
  | none => Except.error name

/-- homeassistant.util.dt.utc_from_timestamp: an external host utility that
converts a seconds timestamp to a datetime; modelled as the identity on the
numeric timestamp, since core logic never inspects the result. -/
def utc_from_timestamp (t : ℚ) : ℚ := t

/-- The attribute store of a BlitzortungEvent object while its constructor is
executing: none means the attribute has not been assigned yet.  The
_remove_signal_delete attribute is assigned the Python None value at line 153;
only its presence is modelled. -/
structure EventObject where
  _attr_distance : Option ℚ := none
  _attr_latitude : Option ℚ := none
  _attr_longitude : Option ℚ := none
  _attr_attribution : Option String := none
  _attr_extra_state_attributes : Option (Nat × ℚ) := none
  _time : Option Int := none
  _status : Option Int := none
  _region : Option Int := none
  _publication_date : Option ℚ := none
  _remove_signal_delete_assigned : Bool := false
  _strike_id : Option Nat := none
  _attr_unit_of_measurement : Option UnitLength := none
  _attr_icon : Option String := none
  _attr_source : Option String := none
  _attr_should_poll : Option Bool := none
  entity_id : Option String := none
deriving DecidableEq

/-- BlitzortungEvent.__init__ (lines 139-159), executed assignment by
assignment in source order.  The extra-state-attributes dict literal of lines
145-148 reads self._strike_id and then self._publication_date; an attribute
read before its assignment raises AttributeError.  fresh models the
uuid4-generated hex id of line 154. -/
def BlitzortungEvent.init (distance latitude longitude : ℚ) (unit : UnitLength)
    (time : Int) (status region : Int) (fresh : Nat) : Except String EventObject := do
  let s : EventObject := {}
  let s := { s with _attr_distance := some distance }
  let s := { s with _attr_latitude := some latitude }
  let s := { s with _attr_longitude := some longitude }
  let s := { s with _attr_attribution := some ATTRIBUTION }
  let sid ← getattr s._strike_id "_strike_id"
  let pd ← getattr s._publication_date "_publication_date"
  let s := { s with _attr_extra_state_attributes := some (sid, utc_from_timestamp pd) }
  let s := { s with _time := some time }
  let s := { s with _status := some status }
  let s := { s with _region := some region }
  let s := { s with _publication_date := some (publication_date_of_time time) }
  let s := { s with _remove_signal_delete_assigned := true }
  let s := { s with _strike_id := some fresh }
  let s := { s with _attr_unit_of_measurement := some unit }
  let s := { s with _attr_icon := some "mdi:flash" }
  let s := { s with _attr_source := some DOMAIN }
  let s := { s with _attr_should_poll := some false }
  let sid2 ← getattr s._strike_id "_strike_id"
  let s := { s with entity_id := some ("geo_location.lightning_strike_" ++ toString sid2) }
  Except.ok s

/-- The total record carried by a fully constructed event object: every
buffer-relevant attribute is read (a read of a still-unassigned attribute
raises AttributeError). -/
def EventObject.toData (e : EventObject) : Except String BlitzortungEventData := do
  let d ← getattr e._attr_distance "_attr_distance"
  let la ← getattr e._attr_latitude "_attr_latitude"
  let lo ← getattr e._attr_longitude "_attr_longitude"
  let t ← getattr e._time "_time"
  let st ← getattr e._status "_status"
  let rg ← getattr e._region "_region"
  let pd ← getattr e._publication_date "_publication_date"
  let sid ← getattr e._strike_id "_strike_id"
  Except.ok { _attr_distance := d, _attr_latitude := la, _attr_longitude := lo,
              _time := t, _status := st, _region := rg,
              _publication_date := pd, _strike_id := sid }

/-- SIGNAL_DELETE_ENTITY.format(strike_id) (line 28 and lines 126-128). -/
def signal_delete_entity (strike_id : Nat) : String :=
  "blitzortung_delete_entity_" ++ toString strike_id

/-- An observable emission of the manager: async_add_entities for a newly
created event (line 116), or an async_dispatcher_send of the delete signal for
an evicted event (lines 125-128). -/
inductive Notif
  | created (e : BlitzortungEventData)
  | removed (signal : String)
deriving DecidableEq

/-- BlitzortungEventManager state (lines 90-102): the Strikes buffer, the
retention window in seconds, and the display unit. -/
structure BlitzortungEventManager where
  strikes : Strikes
  window_seconds : ℚ
  unit : UnitLength
deriving DecidableEq

/-- BlitzortungEventManager.__init__ (lines 90-102).  imperial models the
hass.config.units == IMPERIAL_SYSTEM test. -/
def BlitzortungEventManager.init (max_tracked_lightnings : Int)
    (window_seconds : ℚ) (imperial : Bool) : BlitzortungEventManager :=
  { strikes := Strikes.init max_tracked_lightnings,
    window_seconds := window_seconds,
    unit := if imperial then UnitLength.miles else UnitLength.kilometers }

/-- BlitzortungEventManager.lightning_cb (lines 104-119) as a state
transformer.  The six dict subscripts of lines 107-113 are evaluated, then
BlitzortungEvent.__init__ runs, then insort, then async_add_entities for the
new event, then one delete-signal dispatch per evicted event.  Each failure
branch returns, together with the error, the manager state reached at the
raise point; every failure point precedes the insort mutation, so that state
is the input state. -/
def lightning_cb (m : BlitzortungEventManager) (lightning : PayloadDict)
    (fresh : Nat) : Except String (List Notif) × BlitzortungEventManager :=
  match dict_get lightning.distance "distance" with
  | .error e => (.error e, m)
  | .ok distance =>
  match dict_get lightning.lat "lat" with
  | .error e => (.error e, m)
  | .ok lat =>
  match dict_get lightning.lon "lon" with
  | .error e => (.error e, m)
  | .ok lon =>
  match dict_get lightning.time "time" with
  | .error e => (.error e, m)
  | .ok time =>
  match dict_get lightning.status "status" with
  | .error e => (.error e, m)
  | .ok status =>
  match dict_get lightning.region "region" with
  | .error e => (.error e, m)
  | .ok region =>
  match BlitzortungEvent.init distance lat lon m.unit time status region fresh with
  | .error e => (.error e, m)
  | .ok eventObj =>
  match eventObj.toData with
  | .error e => (.error e, m)
  | .ok event =>
    let r := m.strikes.insort event
    let m1 := { m with strikes := r.1 }
    (.ok (Notif.created event ::
          r.2.map fun ev => Notif.removed (signal_delete_entity ev._strike_id)), m1)

/-- BlitzortungEventManager.tick (lines 130-133): cleanup at threshold
time.time() - window_seconds, then one delete-signal dispatch per evicted
event.  now models the external time.time() reading (seconds). -/
def BlitzortungEventManager.tick (m : BlitzortungEventManager) (now : ℚ) :
    BlitzortungEventManager × List Notif :=
  let r := m.strikes.cleanup (now - m.window_seconds)
  ({ m with strikes := r.1 },
   r.2.map fun ev => Notif.removed (signal_delete_entity ev._strike_id))

/-- async_setup_entry (lines 31-44).  The guard is Python truthiness:
if not coordinator.max_tracked_lightnings: return, and an integer is falsy
exactly when it equals 0.  some m means the manager was constructed and its
lightning_cb and tick were wired to the coordinator; none means setup returned
without constructing it. -/
def async_setup_entry (max_tracked_lightnings : Int) (window_seconds : ℚ)
    (imperial : Bool) : Option BlitzortungEventManager :=
  if max_tracked_lightnings = 0 then none
  else some (BlitzortungEventManager.init max_tracked_lightnings window_seconds imperial)

/-- A call on the buffer: an insort of an item or a cleanup at a threshold. -/
inductive BufferOp
  | ins (e : BlitzortungEventData)
  | exp (k : ℚ)
deriving DecidableEq

/-- Apply one buffer call, keeping the resulting state. -/
def applyOp (s : Strikes) : BufferOp → Strikes
  | .ins e => (s.insort e).1
  | .exp k => (s.cleanup k).1

/-- The buffer state after a sequence of calls starting from a freshly
constructed Strikes(c). -/
def runOps (c : Int) (ops : List BufferOp) : Strikes :=
  ops.foldl applyOp (Strikes.init c)

/-- The invariant maintained by the Strikes container: the key list is
non-decreasing, the key list is the image of the entry list under the key
function (index alignment), and the running maximum bounds every stored
key. -/
def Inv (s : Strikes) : Prop :=
  s.keys.Sorted (· ≤ ·) ∧ s.keys = s.entries.map key_fn ∧ ∀ k ∈ s.keys, k ≤ s.maxKey

/-- A sample stored record with a literal publication-date key, used by the
concrete witnesses below (the Strikes container orders items solely by this
field). -/
def sampleEvent (pd : ℚ) (id : Nat) : BlitzortungEventData :=
  { _attr_distance := 0, _attr_latitude := 0, _attr_longitude := 0,
    _time := 0, _status := 1, _region := 1,
    _publication_date := pd, _strike_id := id }

/-- The record a successful construction from a payload with time field
2000000000 nanoseconds would carry: the publication date is the line-152
value time / 1e9 = 2 seconds. -/
def eventC1 : BlitzortungEventData :=
  { _attr_distance := 5, _attr_latitude := 1, _attr_longitude := 2,
    _time := 2 * 10 ^ 9, _status := 1, _region := 3,
    _publication_date := publication_date_of_time (2 * 10 ^ 9), _strike_id := 7 }

/-- A payload carrying every required field. -/
def payloadFull : PayloadDict :=
  { distance := some 5, lat := some 1, lon := some 2, time := some (2 * 10 ^ 9),
    status := some 1, region := some 3 }

/-- A payload missing the required distance field. -/
def payloadMissingDistance : PayloadDict :=
  { distance := none, lat := some 1, lon := some 2, time := some (2 * 10 ^ 9),
    status := some 1, region := some 3 }

/-- A manager with capacity 100 and a 600 second window, metric units. -/
def manager100 : BlitzortungEventManager := BlitzortungEventManager.init 100 600 false

/-- A well-formed buffer state with three entries and distinct keys. -/
def strikesW : Strikes :=
  { entries := [sampleEvent 1 1, sampleEvent 2 2, sampleEvent 3 3],
    keys := [1, 2, 3], maxKey := 3, capacity := 5 }

/-- A well-formed buffer state containing a duplicated key. -/
def strikesDup : Strikes :=
  { entries := [sampleEvent 1 1, sampleEvent 2 2, sampleEvent 2 3, sampleEvent 3 4],
    keys := [1, 2, 2, 3], maxKey := 3, capacity := 10 }

/-- A sample call sequence: three inserts and one cleanup on a capacity-2
buffer. -/
def opsW : List BufferOp :=
  [BufferOp.ins (sampleEvent 10 1), BufferOp.ins (sampleEvent 20 2),
   BufferOp.ins (sampleEvent 30 3), BufferOp.exp 10]

/-! List helper lemmas used by the invariant proofs. -/

theorem take_takeWhile_length (p : α → Bool) (l : List α) :
    l.take (l.takeWhile p).length = l.takeWhile p := by
  induction l with
  | nil => rfl
  | cons a l ih =>
    cases h : p a with
    | true => simp [List.takeWhile_cons, h, ih]
    | false => simp [List.takeWhile_cons, h]

theorem drop_takeWhile_length (p : α → Bool) (l : List α) :
    l.drop (l.takeWhile p).length = l.dropWhile p := by
  induction l with
  | nil => rfl
  | cons a l ih =>
    cases h : p a with
    | true => simp [List.takeWhile_cons, List.dropWhile_cons, h, ih]
    | false => simp [List.takeWhile_cons, List.dropWhile_cons, h]

theorem takeWhile_map_eq (f : α → β) (p : β → Bool) (l : List α) :
    (l.map f).takeWhile p = (l.takeWhile fun x => p (f x)).map f := by
  induction l with
  | nil => rfl
  | cons a l ih =>
    cases h : p (f a) with
    | true => simp [List.takeWhile_cons, h, ih]
    | false => simp [List.takeWhile_cons, h]

theorem dropWhile_map_eq (f : α → β) (p : β → Bool) (l : List α) :
    (l.map f).dropWhile p = (l.dropWhile fun x => p (f x)).map f := by
  induction l with
  | nil => rfl
  | cons a l ih =>
    cases h : p (f a) with
    | true => simp [List.dropWhile_cons, h, ih]
    | false => simp [List.dropWhile_cons, h]

theorem mem_takeWhile_sat (p : α → Bool) (l : List α) (x : α)
    (hx : x ∈ l.takeWhile p) : p x = true := by
  induction l with
  | nil => simp at hx
  | cons a l ih =>
    rw [List.takeWhile_cons] at hx
    cases h : p a with
    | true => simp [h] at hx; rcases hx with rfl | hx; exact h; exact ih hx
    | false => simp [h] at hx

theorem dropWhile_head_false (p : α → Bool) (l : List α) (a : α) (l' : List α)
    (h : l.dropWhile p = a :: l') : p a = false := by
  induction l with
  | nil => simp at h
  | cons b l ih =>
    rw [List.dropWhile_cons] at h
    cases hb : p b with
    | true => rw [hb] at h; simp at h; exact ih h
    | false => rw [hb] at h; simp at h; rw [← h.1]; exact hb

theorem mem_list_insert (l : List α) (i : Nat) (x y : α)
    (h : y ∈ list_insert l i x) : y = x ∨ y ∈ l := by
  unfold list_insert at h
  rcases List.mem_append.mp h with h1 | h2
  · exact Or.inr (List.mem_of_mem_take h1)
  · rcases List.mem_cons.mp h2 with h3 | h4
    · exact Or.inl h3
    · exact Or.inr (List.mem_of_mem_drop h4)

theorem list_insert_at_takeWhile (p : α → Bool) (l : List α) (x : α) :
    list_insert l (l.takeWhile p).length x = l.takeWhile p ++ x :: l.dropWhile p := by
  unfold list_insert
  rw [take_takeWhile_length, drop_takeWhile_length]

theorem list_insert_length (l : List α) (i : Nat) (x : α) (h : i ≤ l.length) :
    (list_insert l i x).length = l.length + 1 := by
  unfold list_insert
  simp [List.length_take, List.length_drop]
  omega

theorem sorted_dropWhile_gt (k : ℚ) (l : List ℚ) (hs : l.Sorted (· ≤ ·)) :
    ∀ y ∈ l.dropWhile (fun z => decide (z ≤ k)), k < y := by
  induction l with
  | nil => simp
  | cons a l ih =>
    intro y hy
    rw [List.dropWhile_cons] at hy
    by_cases h : a ≤ k
    · rw [if_pos (by simpa using h)] at hy
      exact ih hs.of_cons y hy
    · rw [if_neg (by simpa using h)] at hy
      rcases List.mem_cons.mp hy with rfl | hy
      · exact not_le.mp h
      · exact lt_of_lt_of_le (not_le.mp h) ((List.sorted_cons.mp hs).1 y hy)

theorem sorted_insert_mid (k : ℚ) (l : List ℚ) (hs : l.Sorted (· ≤ ·)) :
    (l.takeWhile (fun y => decide (y ≤ k)) ++
      k :: l.dropWhile (fun y => decide (y ≤ k))).Sorted (· ≤ ·) := by
  refine List.pairwise_append.mpr
    ⟨List.Pairwise.sublist (List.takeWhile_sublist _) hs, ?_, ?_⟩
  · refine List.pairwise_cons.mpr
      ⟨fun b hb => le_of_lt (sorted_dropWhile_gt k l hs b hb),
       List.Pairwise.sublist (List.dropWhile_sublist _) hs⟩
  · intro a ha b hb
    have hak : a ≤ k := of_decide_eq_true (mem_takeWhile_sat _ l a ha)
    rcases List.mem_cons.mp hb with rfl | hb
    · exact hak
    · exact le_of_lt (lt_of_le_of_lt hak (sorted_dropWhile_gt k l hs b hb))

theorem map_list_insert (f : α → β) (l : List α) (i : Nat) (x : α) :
    (list_insert l i x).map f = list_insert (l.map f) i (f x) := by
  unfold list_insert
  simp [List.map_take, List.map_drop]

theorem bisect_right_le_length (a : List ℚ) (x : ℚ) : bisect_right a x ≤ a.length :=
  (List.takeWhile_sublist _).length_le

/-! Invariant preservation for the Strikes operations. -/

theorem inv_init (c : Int) : Inv (Strikes.init c) :=
  ⟨List.sorted_nil, rfl, by simp [Strikes.init]⟩

theorem place_fast_eq (s : Strikes) (e : BlitzortungEventData)
    (h : s.maxKey < key_fn e) :
    s.place e = { s with maxKey := key_fn e, keys := s.keys ++ [key_fn e],
                         entries := s.entries ++ [e] } := by
  simp only [Strikes.place]
  rw [if_pos h]

theorem place_slow_eq (s : Strikes) (e : BlitzortungEventData)
    (h : ¬ s.maxKey < key_fn e) :
    s.place e
      = { s with keys := list_insert s.keys (bisect_right s.keys (key_fn e)) (key_fn e),
                 entries := list_insert s.entries (bisect_right s.keys (key_fn e)) e } := by
  simp only [Strikes.place]
  rw [if_neg h]

theorem place_inv (s : Strikes) (e : BlitzortungEventData) (hI : Inv s) :
    Inv (s.place e) := by
  obtain ⟨hs, ha, hb⟩ := hI
  by_cases h : s.maxKey < key_fn e
  · rw [place_fast_eq s e h]
    refine ⟨?_, ?_, ?_⟩
    · refine List.pairwise_append.mpr ⟨hs, List.pairwise_singleton _ _, ?_⟩
      intro a hamem b hbmem
      rw [List.mem_singleton] at hbmem
      subst hbmem
      exact le_of_lt (lt_of_le_of_lt (hb a hamem) h)
    · simp [ha]
    · intro y hy
      rcases List.mem_append.mp hy with h1 | h2
      · exact le_of_lt (lt_of_le_of_lt (hb y h1) h)
      · rw [List.mem_singleton] at h2
        subst h2
        exact le_refl _
  · rw [place_slow_eq s e h]
    refine ⟨?_, ?_, ?_⟩
    · show (list_insert s.keys
        ((s.keys.takeWhile fun y => decide (y ≤ key_fn e)).length) (key_fn e)).Sorted (· ≤ ·)
      rw [list_insert_at_takeWhile]
      exact sorted_insert_mid _ _ hs
    · show list_insert s.keys (bisect_right s.keys (key_fn e)) (key_fn e)
        = (list_insert s.entries (bisect_right s.keys (key_fn e)) e).map key_fn
      rw [map_list_insert, ← ha]
    · intro y hy
      rcases mem_list_insert _ _ _ _ hy with rfl | h2
      · exact not_lt.mp h
      · exact hb y h2

theorem inv_align_length (s : Strikes) (ha : s.keys = s.entries.map key_fn) :
    s.keys.length = s.entries.length := by
  rw [ha, List.length_map]

theorem place_lengths (s : Strikes) (e : BlitzortungEventData)
    (ha : s.keys = s.entries.map key_fn) :
    (s.place e).keys.length = s.keys.length + 1 ∧
    (s.place e).entries.length = s.entries.length + 1 := by
  by_cases h : s.maxKey < key_fn e
  · rw [place_fast_eq s e h]
    simp
  · rw [place_slow_eq s e h]
    constructor
    · exact list_insert_length _ _ _ (bisect_right_le_length _ _)
    · exact list_insert_length _ _ _
        (le_trans (bisect_right_le_length _ _) (le_of_eq (inv_align_length s ha)))

theorem insort_eq_of_overflow (s : Strikes) (e : BlitzortungEventData)
    (h : 0 < ((s.place e).entries.length : Int) - s.capacity) :
    s.insort e
      = ({ s.place e with
            keys := (s.place e).keys.drop
              (((s.place e).entries.length : Int) - s.capacity).toNat,
            entries := (s.place e).entries.drop
              (((s.place e).entries.length : Int) - s.capacity).toNat },
         (s.place e).entries.take
           (((s.place e).entries.length : Int) - s.capacity).toNat) := by
  simp only [Strikes.insort]
  rw [if_pos h]

theorem insort_eq_of_fit (s : Strikes) (e : BlitzortungEventData)
    (h : ¬ 0 < ((s.place e).entries.length : Int) - s.capacity) :
    s.insort e = (s.place e, []) := by
  simp only [Strikes.insort]
  rw [if_neg h]

theorem drop_inv (s : Strikes) (n : Nat) (hI : Inv s) :
    Inv { s with keys := s.keys.drop n, entries := s.entries.drop n } := by
  obtain ⟨hs, ha, hb⟩ := hI
  refine ⟨List.Pairwise.sublist (List.drop_sublist _ _) hs, ?_, ?_⟩
  · rw [ha, List.map_drop]
  · intro y hy
    exact hb y (List.mem_of_mem_drop hy)

theorem insort_fst_inv (s : Strikes) (e : BlitzortungEventData) (hI : Inv s) :
    Inv (s.insort e).1 := by
  by_cases h : 0 < ((s.place e).entries.length : Int) - s.capacity
  · rw [insort_eq_of_overflow s e h]
    exact drop_inv _ _ (place_inv s e hI)
  · rw [insort_eq_of_fit s e h]
    exact place_inv s e hI

theorem cleanup_fast_empty (s : Strikes) (t : ℚ) (hk : s.keys = []) :
    s.cleanup t = (s, []) := by
  simp only [Strikes.cleanup, hk]

theorem cleanup_fast_young (s : Strikes) (t : ℚ) (k0 : ℚ) (ks : List ℚ)
    (hk : s.keys = k0 :: ks) (h : t < k0) :
    s.cleanup t = (s, []) := by
  simp only [Strikes.cleanup, hk]
  rw [if_pos h]

theorem cleanup_slow_eq (s : Strikes) (t : ℚ) (k0 : ℚ) (ks : List ℚ)
    (hk : s.keys = k0 :: ks) (h : ¬ t < k0) :
    s.cleanup t
      = ({ s with keys := s.keys.drop (bisect_right s.keys t),
                  entries := s.entries.drop (bisect_right s.keys t) },
         s.entries.take (bisect_right s.keys t)) := by
  have hi : bisect_right s.keys t ≠ 0 := by
    rw [hk]
    simp only [bisect_right, List.takeWhile_cons]
    rw [if_pos (by simpa using not_lt.mp h)]
    simp
  simp only [Strikes.cleanup, hk] at *
  rw [if_neg h, if_neg hi]

theorem cleanup_fst_inv (s : Strikes) (t : ℚ) (hI : Inv s) :
    Inv (s.cleanup t).1 := by
  rcases hk : s.keys with _ | ⟨k0, ks⟩
  · rw [cleanup_fast_empty s t hk]
    exact hI
  · by_cases h : t < k0
    · rw [cleanup_fast_young s t k0 ks hk h]
      exact hI
    · rw [cleanup_slow_eq s t k0 ks hk h]
      exact drop_inv _ _ hI

theorem applyOp_inv (s : Strikes) (op : BufferOp) (hI : Inv s) :
    Inv (applyOp s op) := by
  cases op with
  | ins e => exact insort_fst_inv s e hI
  | exp k => exact cleanup_fst_inv s k hI

theorem foldl_applyOp_inv (s : Strikes) (ops : List BufferOp) (hI : Inv s) :
    Inv (ops.foldl applyOp s) := by
  induction ops generalizing s with
  | nil => exact hI
  | cons op ops ih => exact ih _ (applyOp_inv s op hI)

theorem runOps_inv (c : Int) (ops : List BufferOp) : Inv (runOps c ops) :=
  foldl_applyOp_inv _ ops (inv_init c)

theorem place_capacity (s : Strikes) (e : BlitzortungEventData) :
    (s.place e).capacity = s.capacity := by
  by_cases h : s.maxKey < key_fn e
  · rw [place_fast_eq s e h]
  · rw [place_slow_eq s e h]

theorem insort_capacity (s : Strikes) (e : BlitzortungEventData) :
    (s.insort e).1.capacity = s.capacity := by
  by_cases h : 0 < ((s.place e).entries.length : Int) - s.capacity
  · rw [insort_eq_of_overflow s e h]
    exact place_capacity s e
  · rw [insort_eq_of_fit s e h]
    exact place_capacity s e

theorem cleanup_capacity_maxKey (s : Strikes) (t : ℚ) :
    (s.cleanup t).1.capacity = s.capacity ∧ (s.cleanup t).1.maxKey = s.maxKey := by
  rcases hk : s.keys with _ | ⟨k0, ks⟩
  · rw [cleanup_fast_empty s t hk]
    exact ⟨rfl, rfl⟩
  · by_cases h : t < k0
    · rw [cleanup_fast_young s t k0 ks hk h]
      exact ⟨rfl, rfl⟩
    · rw [cleanup_slow_eq s t k0 ks hk h]
      exact ⟨rfl, rfl⟩

theorem applyOp_capacity (s : Strikes) (op : BufferOp) :
    (applyOp s op).capacity = s.capacity := by
  cases op with
  | ins e => exact insort_capacity s e
  | exp k => exact (cleanup_capacity_maxKey s k).1

theorem runOps_capacity (c : Int) (ops : List BufferOp) :
    (runOps c ops).capacity = c := by
  suffices h : ∀ s : Strikes, (ops.foldl applyOp s).capacity = s.capacity by
    exact h (Strikes.init c)
  induction ops with
  | nil => intro s; rfl
  | cons op ops ih =>
    intro s
    rw [List.foldl_cons, ih, applyOp_capacity]

/-! Length and capacity facts. -/

theorem insort_entries_length (s : Strikes) (e : BlitzortungEventData)
    (ha : s.keys = s.entries.map key_fn) (hc : 0 ≤ s.capacity) :
    ((s.insort e).1.entries.length : Int) ≤ s.capacity := by
  have hp := (place_lengths s e ha).2
  by_cases h : 0 < ((s.place e).entries.length : Int) - s.capacity
  · rw [insort_eq_of_overflow s e h]
    simp only [List.length_drop]
    omega
  · rw [insort_eq_of_fit s e h]
    show ((s.place e).entries.length : Int) ≤ s.capacity
    omega

theorem cleanup_entries_length_le (s : Strikes) (t : ℚ) :
    (s.cleanup t).1.entries.length ≤ s.entries.length := by
  rcases hk : s.keys with _ | ⟨k0, ks⟩
  · rw [cleanup_fast_empty s t hk]
  · by_cases h : t < k0
    · rw [cleanup_fast_young s t k0 ks hk h]
    · rw [cleanup_slow_eq s t k0 ks hk h]
      simp only [List.length_drop]
      omega

theorem runOps_length (c : Int) (hc : 0 ≤ c) (ops : List BufferOp) :
    ((runOps c ops).entries.length : Int) ≤ c := by
  suffices h : ∀ s, Inv s → s.capacity = c → ((s.entries.length : Int) ≤ c) →
      ((ops.foldl applyOp s).entries.length : Int) ≤ c by
    exact h _ (inv_init c) rfl (by simp [Strikes.init]; exact hc)
  induction ops with
  | nil => intro s _ _ h3; exact h3
  | cons op ops ih =>
    intro s h1 h2 h3
    rw [List.foldl_cons]
    refine ih _ (applyOp_inv s op h1) (by rw [applyOp_capacity]; exact h2) ?_
    cases op with
    | ins e =>
      show ((s.insort e).1.entries.length : Int) ≤ c
      rw [← h2]
      exact insort_entries_length s e h1.2.1 (by rw [h2]; exact hc)
    | exp k =>
      show (((s.cleanup k).1.entries.length : Int)) ≤ c
      have h4 : ((s.cleanup k).1.entries.length : Int) ≤ (s.entries.length : Int) := by
        exact_mod_cast cleanup_entries_length_le s k
      exact le_trans h4 h3

/-! Characterization of cleanup as a takeWhile and dropWhile split. -/

theorem bisect_right_align (s : Strikes) (t : ℚ)
    (ha : s.keys = s.entries.map key_fn) :
    bisect_right s.keys t
      = (s.entries.takeWhile fun x => decide (key_fn x ≤ t)).length := by
  rw [ha]
  show ((s.entries.map key_fn).takeWhile fun y => decide (y ≤ t)).length = _
  rw [takeWhile_map_eq, List.length_map]

theorem cleanup_keys_eq (s : Strikes) (t : ℚ) :
    (s.cleanup t).1.keys = s.keys.dropWhile (fun y => decide (y ≤ t)) := by
  rcases hk : s.keys with _ | ⟨k0, ks⟩
  · rw [cleanup_fast_empty s t hk, hk]
    rfl
  · by_cases h : t < k0
    · rw [cleanup_fast_young s t k0 ks hk h, hk, List.dropWhile_cons,
          if_neg (by simpa using not_le.mpr h)]
    · rw [cleanup_slow_eq s t k0 ks hk h]
      show s.keys.drop (bisect_right s.keys t) = _
      rw [hk]
      exact drop_takeWhile_length _ _

theorem cleanup_entries_eq (s : Strikes) (t : ℚ)
    (ha : s.keys = s.entries.map key_fn) :
    (s.cleanup t).2 = s.entries.takeWhile (fun x => decide (key_fn x ≤ t)) ∧
    (s.cleanup t).1.entries = s.entries.dropWhile (fun x => decide (key_fn x ≤ t)) := by
  rcases hk : s.keys with _ | ⟨k0, ks⟩
  · have he : s.entries = [] := by
      rw [hk] at ha
      exact List.map_eq_nil_iff.mp ha.symm
    rw [cleanup_fast_empty s t hk, he]
    exact ⟨rfl, rfl⟩
  · rcases he : s.entries with _ | ⟨e0, es⟩
    · rw [hk, he] at ha
      simp at ha
    · rw [hk, he] at ha
      simp only [List.map_cons] at ha
      injection ha with hk0 hks
      by_cases h : t < k0
      · rw [cleanup_fast_young s t k0 ks hk h]
        constructor
        · show ([] : List BlitzortungEventData) = _
          rw [List.takeWhile_cons, if_neg (by rw [← hk0]; simpa using not_le.mpr h)]
        · show s.entries = _
          rw [he, List.dropWhile_cons, if_neg (by rw [← hk0]; simpa using not_le.mpr h)]
      · rw [cleanup_slow_eq s t k0 ks hk h,
            bisect_right_align s t (by rw [hk, he, List.map_cons, ← hk0, ← hks])]
        constructor
        · show s.entries.take (s.entries.takeWhile fun x => decide (key_fn x ≤ t)).length = _
          rw [← he]
          exact take_takeWhile_length _ _
        · show s.entries.drop (s.entries.takeWhile fun x => decide (key_fn x ≤ t)).length = _
          rw [← he]
          exact drop_takeWhile_length _ _

/-! Facts about insort as place followed by a front truncation, about
lightning_cb, and about the irrelevance of the nanosecond field. -/

theorem insort_split (s : Strikes) (e : BlitzortungEventData) :
    (s.insort e).2 ++ (s.insort e).1.entries = (s.place e).entries ∧
    (s.insort e).2 = (s.place e).entries.take
      (((s.place e).entries.length : Int) - s.capacity).toNat ∧
    (s.insort e).1.entries = (s.place e).entries.drop
      (((s.place e).entries.length : Int) - s.capacity).toNat := by
  by_cases h : 0 < ((s.place e).entries.length : Int) - s.capacity
  · rw [insort_eq_of_overflow s e h]
    exact ⟨List.take_append_drop _ _, rfl, rfl⟩
  · rw [insort_eq_of_fit s e h]
    have h0 : (((s.place e).entries.length : Int) - s.capacity).toNat = 0 := by omega
    rw [h0]
    exact ⟨rfl, rfl, rfl⟩

theorem lightning_cb_stuck (m : BlitzortungEventManager) (lightning : PayloadDict)
    (fresh : Nat) :
    (lightning_cb m lightning fresh).2 = m ∧
    ∃ msg, (lightning_cb m lightning fresh).1 = Except.error msg := by
  obtain ⟨d, la, lo, t, st, rg⟩ := lightning
  cases d with
  | none => exact ⟨rfl, "distance", rfl⟩
  | some d =>
    cases la with
    | none => exact ⟨rfl, "lat", rfl⟩
    | some la =>
      cases lo with
      | none => exact ⟨rfl, "lon", rfl⟩
      | some lo =>
        cases t with
        | none => exact ⟨rfl, "time", rfl⟩
        | some t =>
          cases st with
          | none => exact ⟨rfl, "status", rfl⟩
          | some st =>
            cases rg with
            | none => exact ⟨rfl, "region", rfl⟩
            | some rg => exact ⟨rfl, "_strike_id", rfl⟩

theorem place_time_invariant (s : Strikes) (e : BlitzortungEventData) (t' : Int) :
    (s.place { e with _time := t' }).keys = (s.place e).keys ∧
    (s.place { e with _time := t' }).entries.length = (s.place e).entries.length := by
  have hkey : key_fn { e with _time := t' } = key_fn e := rfl
  by_cases h : s.maxKey < key_fn e
  · rw [place_fast_eq s e h, place_fast_eq s _ (by rw [hkey]; exact h)]
    constructor
    · rw [hkey]
    · simp
  · rw [place_slow_eq s e h, place_slow_eq s _ (by rw [hkey]; exact h)]
    constructor
    · rw [hkey]
    · simp [list_insert, hkey]

theorem insort_time_invariant (s : Strikes) (e : BlitzortungEventData) (t' : Int) :
    (s.insort { e with _time := t' }).1.keys = (s.insort e).1.keys ∧
    (s.insort { e with _time := t' }).2.length = (s.insort e).2.length := by
  obtain ⟨hK, hL⟩ := place_time_invariant s e t'
  by_cases h : 0 < ((s.place e).entries.length : Int) - s.capacity
  · rw [insort_eq_of_overflow s e h, insort_eq_of_overflow s _ (by rw [hL]; exact h)]
    constructor
    · simp only [hK, hL]
    · simp only [List.length_take, hL]
  · rw [insort_eq_of_fit s e h, insort_eq_of_fit s _ (by rw [hL]; exact h)]
    exact ⟨hK, rfl⟩

/-! The claim theorems. -/

/-- Claim C1, counterexample: the claim states that the key used by insort and
cleanup equals the record nanosecond timestamp and that core eviction logic
never reads the derived seconds value.  On the code the key function of line
50 reads _publication_date, which line 152 sets to time / 1e9 seconds: for the
record built from time = 2000000000 ns the key is 2, not 2000000000, and the
key list after inserting it holds the seconds value. -/
theorem c1_nanosecond_key_counterexample :
    eventC1._publication_date = publication_date_of_time eventC1._time ∧
    key_fn eventC1 ≠ (eventC1._time : ℚ) ∧
    ((Strikes.init 10).insort eventC1).1.keys = [2] ∧
    ((2 : ℚ)) ≠ (eventC1._time : ℚ) := by
  have hpd : publication_date_of_time (2 * 10 ^ 9) = 2 := by
    norm_num [publication_date_of_time]
  have hev : eventC1
      = { _attr_distance := 5, _attr_latitude := 1, _attr_longitude := 2,
          _time := 2 * 10 ^ 9, _status := 1, _region := 3,
          _publication_date := 2, _strike_id := 7 } := by
    unfold eventC1
    rw [hpd]
  refine ⟨rfl, ?_, ?_, ?_⟩
  · rw [hev]
    norm_num [key_fn]
  · rw [hev]
    decide
  · rw [hev]
    norm_num

/-- Claim C1, amended: the ordering and age-comparison key of the buffer is
the seconds-scaled _publication_date (assigned on construction as the
nanosecond time divided by 1e9), and core eviction logic never reads the raw
nanosecond _time field: changing _time changes neither the key sequence nor
the number of evictions of insort, nor the cleanup threshold derived from a
record key. -/
theorem c1_amended_key_is_seconds_publication_date (e : BlitzortungEventData)
    (s : Strikes) (t' : Int) (t : Int) :
    key_fn e = e._publication_date ∧
    publication_date_of_time t = (t : ℚ) / 10 ^ 9 ∧
    (s.insort e).1.keys = (s.insort { e with _time := t' }).1.keys ∧
    (s.insort e).2.length = (s.insort { e with _time := t' }).2.length ∧
    (s.cleanup (key_fn e)).1.keys
      = (s.cleanup (key_fn { e with _time := t' })).1.keys :=
  ⟨rfl, rfl, (insort_time_invariant s e t').1.symm,
   (insort_time_invariant s e t').2.symm, rfl⟩

/-- Claim C2: for every input, BlitzortungEvent construction raises
AttributeError on _strike_id, because the extra-state-attributes dict of lines
145-148 reads self._strike_id before line 154 assigns it; consequently every
lightning_cb call fails before insort is reached, inserts nothing into the
buffer, and emits no creation or removal notification. -/
theorem c2_constructor_reads_unassigned_attribute :
    (∀ (distance latitude longitude : ℚ) (unit : UnitLength) (time : Int)
        (status region : Int) (fresh : Nat),
        BlitzortungEvent.init distance latitude longitude unit time status region fresh
          = Except.error "_strike_id") ∧
    (∀ (m : BlitzortungEventManager) (lightning : PayloadDict) (fresh : Nat),
        (lightning_cb m lightning fresh).2 = m ∧
        ∃ msg, (lightning_cb m lightning fresh).1 = Except.error msg) :=
  ⟨fun _ _ _ _ _ _ _ _ => rfl, fun m lightning fresh => lightning_cb_stuck m lightning fresh⟩

/-- Claim C3: starting from an empty buffer, the key sequence is
non-decreasing after every insort call (both the fast append path and the
right-biased binary-search insertion path preserve order); since the inserted
items are universally quantified, every intermediate state is covered. -/
theorem c3_insort_order_invariant (c : Int) (items : List BlitzortungEventData) :
    (items.foldl (fun s e => (s.insort e).1) (Strikes.init c)).keys.Sorted (· ≤ ·) := by
  suffices h : ∀ s, Inv s → Inv (items.foldl (fun s e => (s.insort e).1) s) by
    exact (h _ (inv_init c)).1
  induction items with
  | nil => exact fun s hI => hI
  | cons e items ih => exact fun s hI => ih _ (insort_fst_inv s e hI)

/-- Claim C4: after any call sequence on a buffer with nonnegative configured
capacity, the key and entry sequences have equal length, that length never
exceeds the capacity, and an insort call evicts exactly
(length after placement) - capacity entries (zero when that is not positive),
taken from the front, returned in their prior ascending-key order, every
evicted key being at most every remaining key. -/
theorem c4_capacity_alignment_and_front_eviction (c : Int) (ops : List BufferOp)
    (e : BlitzortungEventData) (hc : 0 ≤ c) :
    (runOps c ops).keys.length = (runOps c ops).entries.length ∧
    ((runOps c ops).entries.length : Int) ≤ c ∧
    ((runOps c ops).insort e).2.length
      = ((((runOps c ops).place e).entries.length : Int) - c).toNat ∧
    ((runOps c ops).insort e).2 ++ ((runOps c ops).insort e).1.entries
      = ((runOps c ops).place e).entries ∧
    (((runOps c ops).insort e).2.map key_fn).Sorted (· ≤ ·) ∧
    ∀ a ∈ ((runOps c ops).insort e).2, ∀ b ∈ ((runOps c ops).insort e).1.entries,
      key_fn a ≤ key_fn b := by
  have hI := runOps_inv c ops
  have hcap := runOps_capacity c ops
  have hlen := runOps_length c hc ops
  have hpI := place_inv (runOps c ops) e hI
  have hsplit := insort_split (runOps c ops) e
  refine ⟨inv_align_length _ hI.2.1, hlen, ?_, hsplit.1, ?_, ?_⟩
  · have hle : ((((runOps c ops).place e).entries.length : Int) - c).toNat
        ≤ ((runOps c ops).place e).entries.length := by omega
    rw [hsplit.2.1, List.length_take, hcap, Nat.min_eq_left hle]
  · rw [hsplit.2.1, List.map_take]
    rw [show ((runOps c ops).place e).entries.map key_fn
          = ((runOps c ops).place e).keys from hpI.2.1.symm]
    exact List.Pairwise.sublist (List.take_sublist _ _) hpI.1
  · intro a hamem b hbmem
    rw [hsplit.2.1] at hamem
    rw [hsplit.2.2] at hbmem
    have hsorted : (((runOps c ops).place e).entries.map key_fn).Pairwise (· ≤ ·) := by
      rw [← hpI.2.1]
      exact hpI.1
    have h2 : ((((runOps c ops).place e).entries.take
          ((((runOps c ops).place e).entries.length : Int) - (runOps c ops).capacity).toNat
        ++ ((runOps c ops).place e).entries.drop
          ((((runOps c ops).place e).entries.length : Int) - (runOps c ops).capacity).toNat).map
            key_fn).Pairwise (· ≤ ·) := by
      rw [List.take_append_drop]
      exact hsorted
    rw [List.map_append] at h2
    exact (List.pairwise_append.mp h2).2.2 _ (List.mem_map_of_mem _ hamem) _
      (List.mem_map_of_mem _ hbmem)

/-- Claim C5: on a buffer with non-decreasing keys aligned with its entries,
cleanup(t) removes and returns exactly the maximal leading prefix of entries
with key at most t, in ascending-key order; every remaining entry has key
strictly above t and the remaining entries are the original suffix in order;
the running maximum and the capacity are untouched, and on an empty buffer the
call returns an empty result and leaves the state unchanged. -/
theorem c5_cleanup_exact_front_segment (s : Strikes) (t : ℚ)
    (hs : s.keys.Sorted (· ≤ ·)) (ha : s.keys = s.entries.map key_fn) :
    (s.cleanup t).2 = s.entries.takeWhile (fun x => decide (key_fn x ≤ t)) ∧
    (s.cleanup t).1.entries = s.entries.dropWhile (fun x => decide (key_fn x ≤ t)) ∧
    (s.cleanup t).1.keys = s.keys.dropWhile (fun y => decide (y ≤ t)) ∧
    ((s.cleanup t).2.map key_fn).Sorted (· ≤ ·) ∧
    (∀ x ∈ (s.cleanup t).1.entries, t < key_fn x) ∧
    (s.cleanup t).1.maxKey = s.maxKey ∧
    (s.cleanup t).1.capacity = s.capacity ∧
    (s.entries = [] → s.cleanup t = (s, [])) := by
  refine ⟨(cleanup_entries_eq s t ha).1, (cleanup_entries_eq s t ha).2,
          cleanup_keys_eq s t, ?_, ?_, (cleanup_capacity_maxKey s t).2,
          (cleanup_capacity_maxKey s t).1, ?_⟩
  · rw [(cleanup_entries_eq s t ha).1]
    have hmap : (s.entries.takeWhile fun x => decide (key_fn x ≤ t)).map key_fn
        = s.keys.takeWhile fun y => decide (y ≤ t) := by
      rw [ha, takeWhile_map_eq]
    rw [hmap]
    exact List.Pairwise.sublist (List.takeWhile_sublist _) hs
  · intro x hx
    rw [(cleanup_entries_eq s t ha).2] at hx
    have hmem : key_fn x ∈ s.keys.dropWhile fun y => decide (y ≤ t) := by
      rw [ha, dropWhile_map_eq]
      exact List.mem_map_of_mem _ hx
    exact sorted_dropWhile_gt t s.keys hs _ hmem
  · intro he
    have hk : s.keys = [] := by
      rw [ha, he]
      rfl
    exact cleanup_fast_empty s t hk

/-- Claim C6, code evidence: the claim describes the intended notification
fan-out of a successfully consumed payload, but no payload is ever
successfully consumed: on a complete well-formed payload lightning_cb raises
AttributeError on _strike_id inside the event constructor, before insort and
before async_add_entities, so neither the creation notification nor any
removal notification is ever emitted. -/
theorem c6_no_payload_is_successfully_consumed :
    (lightning_cb manager100 payloadFull 7).1 = Except.error "_strike_id" ∧
    (lightning_cb manager100 payloadFull 7).2 = manager100 :=
  ⟨rfl, rfl⟩

/-- Claim C7: a failed lightning_cb call leaves the manager state, and with it
the buffer entry and key sequences, exactly as they were before the call:
every failure point precedes the insort mutation. -/
theorem c7_failed_ingestion_is_atomic (m : BlitzortungEventManager)
    (p : PayloadDict) (fresh : Nat) (msg : String)
    (hfail : (lightning_cb m p fresh).1 = Except.error msg) :
    (lightning_cb m p fresh).2 = m :=
  (lightning_cb_stuck m p fresh).1

/-- Claim C7 witness: a concrete payload missing the distance field fails with
KeyError distance and leaves the concrete manager unchanged. -/
theorem c7_witness :
    (lightning_cb manager100 payloadMissingDistance 0).1 = Except.error "distance" ∧
    (lightning_cb manager100 payloadMissingDistance 0).2 = manager100 :=
  ⟨rfl, c7_failed_ingestion_is_atomic manager100 payloadMissingDistance 0 "distance" rfl⟩

/-- Claim C8: after cleanup(t) on a buffer whose keys are non-decreasing, a
second cleanup with any threshold at most t and no intervening insertion
returns an empty result and leaves the buffer unchanged. -/
theorem c8_cleanup_idempotent (s : Strikes) (t t' : ℚ)
    (hs : s.keys.Sorted (· ≤ ·)) (ht : t' ≤ t) :
    ((s.cleanup t).1.cleanup t').2 = [] ∧
    (s.cleanup t).1.cleanup t' = ((s.cleanup t).1, []) := by
  have hkeys := cleanup_keys_eq s t
  rcases hk1 : (s.cleanup t).1.keys with _ | ⟨h1, rest⟩
  · rw [cleanup_fast_empty _ t' hk1]
    exact ⟨rfl, rfl⟩
  · have hfalse : decide (h1 ≤ t) = false := by
      apply dropWhile_head_false _ s.keys h1 rest
      rw [← hkeys]
      exact hk1
    have hgt : t < h1 := not_le.mp (by simpa using hfalse)
    rw [cleanup_fast_young _ t' h1 rest hk1 (lt_of_le_of_lt ht hgt)]
    exact ⟨rfl, rfl⟩

/-- Claim C8 witness: on a concrete sorted buffer, cleanup at 2 followed by
cleanup at 2 returns nothing and changes nothing. -/
theorem c8_witness :
    strikesW.keys.Sorted (· ≤ ·) ∧ ((2 : ℚ) ≤ 2) ∧
    ((strikesW.cleanup 2).1.cleanup 2).2 = [] ∧
    (strikesW.cleanup 2).1.cleanup 2 = ((strikesW.cleanup 2).1, []) :=
  ⟨by decide, by decide,
   (c8_cleanup_idempotent strikesW 2 2 (by decide) (by decide)).1,
   (c8_cleanup_idempotent strikesW 2 2 (by decide) (by decide)).2⟩

/-- Claim C9, counterexample: the claim states that every zero or negative
configured capacity prevents the manager from being constructed, but the
guard of line 33 is Python truthiness, which only catches zero: with capacity
-1 setup does construct and wire the manager. -/
theorem c9_negative_capacity_constructs_counterexample :
    ((-1 : Int) ≤ 0) ∧ async_setup_entry (-1) 600 false ≠ none := by
  refine ⟨by decide, ?_⟩
  simp [async_setup_entry]

/-- Claim C9, amended: setup skips constructing and wiring the manager exactly
when the configured capacity equals zero (the Python-falsy integer); every
nonzero capacity, negative values included, constructs the manager. -/
theorem c9_amended_guard_is_zero_only (c : Int) (w : ℚ) (imperial : Bool) :
    (async_setup_entry c w imperial = none ↔ c = 0) ∧
    (async_setup_entry c w imperial
        = some (BlitzortungEventManager.init c w imperial) ↔ c ≠ 0) := by
  unfold async_setup_entry
  by_cases h : c = 0
  · rw [if_pos h]
    simp [h]
  · rw [if_neg h]
    simp [h]

/-- Claim C10: inserting an item whose key already occurs in a well-formed
buffer takes the right-biased path and places it immediately after every
existing entry with key at most the new key (in particular after all entries
with an equal key) and before every entry with a strictly greater key, so
equal-key items keep arrival order; the subsequent capacity step only
truncates from the front. -/
theorem c10_equal_keys_insert_right_biased (s : Strikes) (e : BlitzortungEventData)
    (hs : s.keys.Sorted (· ≤ ·)) (ha : s.keys = s.entries.map key_fn)
    (hb : ∀ k ∈ s.keys, k ≤ s.maxKey) (hmem : key_fn e ∈ s.keys) :
    (s.place e).entries
      = s.entries.takeWhile (fun x => decide (key_fn x ≤ key_fn e)) ++ e ::
        s.entries.dropWhile (fun x => decide (key_fn x ≤ key_fn e)) ∧
    (∀ x ∈ s.entries.takeWhile (fun x => decide (key_fn x ≤ key_fn e)),
        key_fn x ≤ key_fn e) ∧
    (∀ x ∈ s.entries.dropWhile (fun x => decide (key_fn x ≤ key_fn e)),
        key_fn e < key_fn x) ∧
    (s.insort e).1.entries = (s.place e).entries.drop
      ((((s.place e).entries.length : Int) - s.capacity)).toNat ∧
    (s.insort e).2 = (s.place e).entries.take
      ((((s.place e).entries.length : Int) - s.capacity)).toNat := by
  have hslow : ¬ s.maxKey < key_fn e := not_lt.mpr (hb _ hmem)
  refine ⟨?_, ?_, ?_, (insort_split s e).2.2, (insort_split s e).2.1⟩
  · rw [place_slow_eq s e hslow]
    show list_insert s.entries (bisect_right s.keys (key_fn e)) e = _
    rw [bisect_right_align s (key_fn e) ha, list_insert_at_takeWhile]
  · intro x hx
    exact of_decide_eq_true
      (mem_takeWhile_sat (fun x => decide (key_fn x ≤ key_fn e)) s.entries x hx)
  · intro x hx
    have hmem2 : key_fn x ∈ s.keys.dropWhile fun y => decide (y ≤ key_fn e) := by
      rw [ha, dropWhile_map_eq]
      exact List.mem_map_of_mem _ hx
    exact sorted_dropWhile_gt _ s.keys hs _ hmem2

/-- Claim C10 witness: inserting a key-2 item into a concrete buffer whose
keys are 1, 2, 2, 3 places it after both existing key-2 entries and before
the key-3 entry. -/
theorem c10_witness :
    strikesDup.keys.Sorted (· ≤ ·) ∧
    strikesDup.keys = strikesDup.entries.map key_fn ∧
    (∀ k ∈ strikesDup.keys, k ≤ strikesDup.maxKey) ∧
    key_fn (sampleEvent 2 9) ∈ strikesDup.keys ∧
    (strikesDup.place (sampleEvent 2 9)).entries
      = [sampleEvent 1 1, sampleEvent 2 2, sampleEvent 2 3, sampleEvent 2 9,
         sampleEvent 3 4] := by
  refine ⟨by decide, by decide, by decide, by decide, ?_⟩
  rw [(c10_equal_keys_insert_right_biased strikesDup (sampleEvent 2 9)
        (by decide) (by decide) (by decide) (by decide)).1]
  decide

/-- Claim C4 witness: a concrete run with capacity 2: three inserts and one
cleanup, then an insort that overflows by one. -/
theorem c4_witness :
    ((0 : Int) ≤ 2) ∧
    (runOps 2 opsW).keys.length = (runOps 2 opsW).entries.length ∧
    ((runOps 2 opsW).entries.length : Int) ≤ 2 ∧
    ((runOps 2 opsW).insort (sampleEvent 15 4)).2.length
      = ((((runOps 2 opsW).place (sampleEvent 15 4)).entries.length : Int) - 2).toNat :=
  ⟨by decide,
   (c4_capacity_alignment_and_front_eviction 2 opsW (sampleEvent 15 4) (by decide)).1,
   (c4_capacity_alignment_and_front_eviction 2 opsW (sampleEvent 15 4) (by decide)).2.1,
   (c4_capacity_alignment_and_front_eviction 2 opsW (sampleEvent 15 4) (by decide)).2.2.1⟩

/-- Claim C5 witness: on a concrete sorted aligned buffer, cleanup at 2
returns exactly the leading entries with key at most 2. -/
theorem c5_witness :
    strikesW.keys.Sorted (· ≤ ·) ∧
    strikesW.keys = strikesW.entries.map key_fn ∧
    (strikesW.cleanup 2).2
      = strikesW.entries.takeWhile (fun x => decide (key_fn x ≤ 2)) :=
  ⟨by decide, by decide,
   (c5_cleanup_exact_front_segment strikesW 2 (by decide) (by decide)).1⟩

end Blitzortung
